import Mathlib

/-!
Shallow embedding of the atuin-fzf history picker (main.go plus the tcolor
helper package).  Go strings are modelled as lists of characters; the
external processes (the atuin backend and the fzf selector) appear as
parameters supplying their observable results.  Go panics are modelled by
an explicit outcome type, and the adapter's pipe consumer is modelled by a
function saying which writes succeed.
-/

namespace AtuinFzf

/-- Go strings, modelled as lists of characters. -/
abbrev GoStr := List Char

/-- Conversion from a Lean string literal into the character-list model. -/
def gs (s : String) : GoStr := s.toList

/-- The private field delimiter `_delim = ":::"` of main.go. -/
def _delim : GoStr := gs ":::"

/-- The tab separator used by the preview's two-field atuin format. -/
def tabSep : GoStr := gs "\t"

/-- Boolean test that the first list is a leading segment of the second
(the check Go's strings package performs when scanning for a separator). -/
def isPrefixB : GoStr → GoStr → Bool
  | [], _ => true
  | _ :: _, [] => false
  | a :: as, b :: bs => a == b && isPrefixB as bs

/-- Go `strings.Contains s sub`: does `s` contain `sub` as a substring. -/
def containsGo : GoStr → GoStr → Bool
  | [], sub => isPrefixB sub []
  | c :: t, sub => isPrefixB sub (c :: t) || containsGo t sub

/-- Fuelled worker for `splitGo`.  Each recursive call shortens the string
by at least one character, so fuel at least the string length makes the
fuel-exhaustion branch unreachable. -/
def splitFuel (sep : GoStr) : Nat → GoStr → List GoStr
  | _, [] => [[]]
  | 0, s => [s]
  | fuel + 1, c :: rest =>
    if !sep.isEmpty && isPrefixB sep (c :: rest) then
      [] :: splitFuel sep fuel ((c :: rest).drop sep.length)
    else
      match splitFuel sep fuel rest with
      | [] => [[c]]
      | hd :: tl => (c :: hd) :: tl

/-- Go `strings.Split s sep` for a nonempty separator: splits `s` around
each leftmost nonoverlapping occurrence of `sep`.  Both separators used by
the program (`:::` and a tab) are nonempty. -/
def splitGo (sep s : GoStr) : List GoStr := splitFuel sep s.length s

/-- Locate the first occurrence of `sep` in `s`, returning the text before
it and the text after it, if any occurrence exists. -/
def breakOn (sep : GoStr) : GoStr → Option (GoStr × GoStr)
  | [] => none
  | c :: rest =>
    if !sep.isEmpty && isPrefixB sep (c :: rest) then
      some ([], (c :: rest).drop sep.length)
    else
      match breakOn sep rest with
      | none => none
      | some (pre, post) => some (c :: pre, post)

/-- Go `strings.SplitN s sep 2`: at most two pieces, cut at the first
occurrence of `sep`. -/
def splitN2 (sep s : GoStr) : List GoStr :=
  match breakOn sep s with
  | none => [s]
  | some (pre, post) => [pre, post]

/-- Go format verb `%-40.40s`: truncate to 40 characters, then left-justify
by padding with spaces to width 40. -/
def padTrunc40 (s : GoStr) : GoStr :=
  let t := s.take 40
  t ++ List.replicate (40 - t.length) ' '

/-- Go format verb `%-10s`: left-justify by padding with spaces to width 10
(no truncation). -/
def padRight10 (s : GoStr) : GoStr := s ++ List.replicate (10 - s.length) ' '

/-- tcolor.Red (ANSI 256-colour index). -/
def Red : Nat := 1

/-- tcolor.Green (ANSI 256-colour index). -/
def Green : Nat := 2

/-- tcolor `Color.Foreground`: wrap `s` in the 256-colour foreground escape
for colour index `c`. -/
def Foreground (c : Nat) (s : GoStr) : GoStr :=
  gs "\x1b[38;5;" ++ gs (toString c) ++ gs "m" ++ s ++ gs "\x1b[0m"

/-- tcolor `Bold`: wrap `s` in the ANSI bold escape. -/
def Bold (s : GoStr) : GoStr := gs "\x1b[1m" ++ s ++ gs "\x1b[0m"

/-- The `exitStatus` value computed per record in `atuinAdapt`: a single
space for exit code `"0"`, otherwise `exit N` in red. -/
def exitStatus (exitCode : GoStr) : GoStr :=
  if exitCode ≠ gs "0" then Foreground Red (gs "exit " ++ exitCode) else gs " "

/-- The `dirCtx` value computed per record in `atuinAdapt`: a dim marker
when the record's directory equals the captured working directory,
otherwise empty. -/
def dirCtx (curDir directory : GoStr) : GoStr :=
  if directory = curDir then gs " \x1b[38;5;242m(current dir)\x1b[0m" else gs ""

/-- Kinds of Go runtime panic the producer goroutine can hit: indexing a
split result past its length, or `panic(err)` after a failed pipe write. -/
inductive GoPanic
  | indexOutOfRange
  | writeError
deriving DecidableEq

/-- Outcome of the adapter's producer goroutine: a normal end of the loop
(with the lines successfully written), or a panic (with the lines written
before it). -/
inductive AdaptOutcome
  | finished (written : List GoStr)
  | panicked (p : GoPanic) (written : List GoStr)
deriving DecidableEq

/-- One iteration of the `atuinAdapt` scan loop on one input line: split on
`:::`, read the five fields by position (a short split panics, as Go's
`parts[4]` would), derive `exitStatus` and `dirCtx`, and join all seven
fields with the same delimiter. -/
def atuinAdaptLine (curDir line : GoStr) : Except GoPanic GoStr :=
  match splitGo _delim line with
  | command :: exitCode :: directory :: duration :: timestamp :: _ =>
    .ok (List.intercalate _delim
      [command, exitCode, directory, duration, timestamp,
       exitStatus exitCode, dirCtx curDir directory])
  | _ => .error .indexOutOfRange

/-- Total form of `atuinAdaptLine` for well-formed lines (the default is
never reached when the line has at least five fields). -/
def enrichedLine (curDir line : GoStr) : GoStr :=
  (atuinAdaptLine curDir line).toOption.getD (gs "")

/-- The producer goroutine's loop: `accept i` says whether the i-th write
to the pipe succeeds (false models the consumer having closed the read
end).  On a failed write the Go code runs `panic(err)`. -/
def atuinAdaptGo (curDir : GoStr) (accept : Nat → Bool) :
    List GoStr → Nat → List GoStr → AdaptOutcome
  | [], _, written => .finished written
  | line :: rest, i, written =>
    match atuinAdaptLine curDir line with
    | .error p => .panicked p written
    | .ok out =>
      if accept i then atuinAdaptGo curDir accept rest (i + 1) (written ++ [out])
      else .panicked .writeError written

/-- The `atuinAdapt` producer goroutine run over the backend's whole line
stream. -/
def atuinAdapt (curDir : GoStr) (accept : Nat → Bool) (lines : List GoStr) :
    AdaptOutcome :=
  atuinAdaptGo curDir accept lines 0 []

/-- The preview's per-line rendering inside `printResults`: split at the
first tab; lines with two pieces print a truncated/padded command plus the
directory in parentheses, others print nothing. -/
def renderLine (line : GoStr) : Option GoStr :=
  match splitN2 tabSep line with
  | [p0, p1] => some (padTrunc40 p0 ++ gs " (" ++ p1 ++ gs ")")
  | _ => none

/-- The scanner loop of `printResults`: thread the `seen` set over the
lines, printing each line not seen before (via `renderLine`) and marking
it seen. -/
def printLoop (seen printed : List GoStr) : List GoStr → List GoStr × List GoStr
  | [] => (seen, printed)
  | line :: rest =>
    if line ∈ seen then printLoop seen printed rest
    else printLoop (line :: seen) (printed ++ (renderLine line).toList) rest

/-- One call of `printResults` on the result of a backend query: a failed
query (`cmd.Output` error) prints nothing and yields its error; a
successful one runs the scanner loop over the output lines. -/
def printResultsM (st : List GoStr × List GoStr)
    (res : Except GoStr (List GoStr)) : (List GoStr × List GoStr) × Option GoStr :=
  match res with
  | .error e => (st, some e)
  | .ok lines => (printLoop st.1 st.2 lines, none)

/-- The related-commands block of `fzfPreview`: run `printResults` on the
global query then on the directory query with one shared `seen` set, and
collect the errors with `errors.Join` (kept here as the list of non-nil
errors, in order). -/
def relatedBlock (g d : Except GoStr (List GoStr)) : List GoStr × List GoStr :=
  let r1 := printResultsM (([], []) : List GoStr × List GoStr) g
  let r2 := printResultsM r1.1 d
  (r2.1.2, r1.2.toList ++ r2.2.toList)

/-- First-seen-order deduplication as the spec words it: merge the lists,
keeping only the first occurrence of each key.  This is the refinement
target the code's threaded `seen` map is compared against. -/
def dedupFirstSeen (l : List GoStr) : List GoStr :=
  l.foldl (fun acc x => if x ∈ acc then acc else acc ++ [x]) []

/-- Helper mirroring `printLoop`'s seen-set threading at the level of keys:
the sublist of `l` of first occurrences of keys not already in `seen`. -/
def dedupNew (seen : List GoStr) : List GoStr → List GoStr
  | [] => []
  | x :: rest =>
    if x ∈ seen then dedupNew seen rest else x :: dedupNew (x :: seen) rest

/-- The horizontal rule printed between preview sections. -/
def hrule : GoStr := gs "───────────────────────────────────────────────────"

/-- The message of the error `fzfPreview` returns on a short split. -/
def formatErrMsg (n : Nat) : GoStr :=
  gs "data format incorrect, expected 5 parts, got " ++ gs (toString n)

/-- The `fzfPreview` function: split the selected record on `:::`; with
fewer than five fields return the format error having printed nothing;
otherwise print the fixed report header and details, then the
related-commands block fed by the two backend query results `g` and `d`.
Returns the printed lines and the collected errors. -/
def fzfPreview (g d : Except GoStr (List GoStr)) (data : GoStr) :
    List GoStr × List GoStr :=
  match splitGo _delim data with
  | command :: exitCode :: directory :: duration :: timestamp :: _ =>
    let exitCol := if exitCode ≠ gs "0" then Red else Green
    let header : List GoStr :=
      [Bold (gs "Full Command"), hrule, command, gs "",
       Bold (gs "Execution Details"), hrule,
       padRight10 (gs "Status:") ++ gs " " ++ Foreground exitCol exitCode,
       padRight10 (gs "Ran In:") ++ gs " " ++ directory,
       padRight10 (gs "Duration:") ++ gs " " ++ duration,
       padRight10 (gs "When:") ++ gs " " ++ timestamp,
       gs "",
       Bold (gs "Recent Similar Commands"), hrule]
    let rel := relatedBlock g d
    (header ++ rel.1, rel.2)
  | parts => ([], [formatErrMsg parts.length])

/-- The pipeline steps of `run`, in source order. -/
inductive Step
  | backendLaunch
  | adapterAttach
  | selectorRun
  | backendAwait
deriving DecidableEq

/-- The full linear step sequence of `run`. -/
def pipelineSteps : List Step :=
  [.backendLaunch, .adapterAttach, .selectorRun, .backendAwait]

/-- Results of the four externally-visible calls `run` makes, supplied as
an environment: `altuinSearch`, `atuinAdapt` (pipe creation), `fzf`, and
`atuin.cmd.Wait`. -/
structure RunEnv where
  searchRes : Except GoStr Unit
  adaptRes : Except GoStr Unit
  fzfRes : Except GoStr Unit
  waitRes : Except GoStr Unit

/-- The `run` controller: each step in order, returning the first error
and skipping the rest; on success of all steps, success after the backend
wait.  The trace records the steps attempted. -/
def run (env : RunEnv) : List Step × Except GoStr Unit :=
  match env.searchRes with
  | .error e => ([.backendLaunch], .error e)
  | .ok _ =>
    match env.adaptRes with
    | .error e => ([.backendLaunch, .adapterAttach], .error e)
    | .ok _ =>
      match env.fzfRes with
      | .error e => ([.backendLaunch, .adapterAttach, .selectorRun], .error e)
      | .ok _ =>
        match env.waitRes with
        | .error e => (pipelineSteps, .error e)
        | .ok _ => (pipelineSteps, .ok ())

/-- The `main` dispatch over `os.Args` (the program name included), with
the preview renderer's and the pipeline's results supplied as parameters.
Returns the process exit code, whether the preview renderer ran, and
whether the interactive pipeline ran.  `log.Fatal` exits with code 1. -/
def mainModel (previewRes : GoStr → Except GoStr Unit)
    (runRes : GoStr → Except GoStr Unit) (args : List GoStr) :
    Nat × Bool × Bool :=
  match args with
  | _ :: arg1 :: rest =>
    if arg1 = gs "--preview" then
      match rest with
      | data :: _ =>
        match previewRes data with
        | .error _ => (1, true, false)
        | .ok _ => (0, true, false)
      | [] => (0, false, false)
    else
      match runRes arg1 with
      | .error _ => (1, false, true)
      | .ok _ => (0, false, true)
  | _ =>
    match runRes (gs "") with
    | .error _ => (1, false, true)
    | .ok _ => (0, false, true)


/-- Appending anything preserves the leading-segment test. -/
theorem isPrefixB_append_self (a t : GoStr) : isPrefixB a (a ++ t) = true := by
  induction a with
  | nil => rfl
  | cons c as ih => simp [isPrefixB, ih]

/-- Reflexivity of the leading-segment test. -/
theorem isPrefixB_refl (a : GoStr) : isPrefixB a a = true := by
  simpa using isPrefixB_append_self a []

/-- Transitivity of the leading-segment test. -/
theorem isPrefixB_trans {a b c : GoStr} (h1 : isPrefixB a b = true)
    (h2 : isPrefixB b c = true) : isPrefixB a c = true := by
  induction a generalizing b c with
  | nil => rfl
  | cons x as ih =>
    cases b with
    | nil => simp [isPrefixB] at h1
    | cons y bs =>
      cases c with
      | nil => simp [isPrefixB] at h2
      | cons z cs =>
        simp only [isPrefixB, Bool.and_eq_true, beq_iff_eq] at h1 h2 ⊢
        exact ⟨h1.1.trans h2.1, ih h1.2 h2.2⟩

/-- A leading occurrence is an occurrence. -/
theorem containsGo_of_isPrefixB {a s : GoStr} (h : isPrefixB a s = true) :
    containsGo s a = true := by
  cases s with
  | nil => exact h
  | cons c t => simp [containsGo, h]

/-- Occurrences survive prepending text. -/
theorem containsGo_append_left {s t a : GoStr} (h : containsGo t a = true) :
    containsGo (s ++ t) a = true := by
  induction s with
  | nil => simpa using h
  | cons c s2 ih => simp [containsGo, ih]

/-- A string embedded between two others occurs in the whole. -/
theorem containsGo_middle (pre a post : GoStr) :
    containsGo (pre ++ (a ++ post)) a = true :=
  containsGo_append_left (containsGo_of_isPrefixB (isPrefixB_append_self a post))

/-- The split worker never returns the empty list of parts. -/
theorem splitFuel_ne_nil (sep : GoStr) (fuel : Nat) (s : GoStr) :
    splitFuel sep fuel s ≠ [] := by
  induction fuel generalizing s with
  | zero => cases s <;> simp [splitFuel]
  | succ n ih =>
    cases s with
    | nil => simp [splitFuel]
    | cons c rest =>
      simp only [splitFuel]
      split
      · simp
      · split <;> simp

/-- The first part produced by the split worker is a leading segment of the
input. -/
theorem splitFuel_head_leading (sep : GoStr) (fuel : Nat) :
    ∀ s hd tl, splitFuel sep fuel s = hd :: tl → isPrefixB hd s = true := by
  induction fuel with
  | zero =>
    intro s hd tl h
    cases s with
    | nil =>
      simp [splitFuel] at h
      rw [h.1]
      rfl
    | cons c rest =>
      simp [splitFuel] at h
      rw [h.1]
      exact isPrefixB_refl _
  | succ n ih =>
    intro s hd tl h
    cases s with
    | nil =>
      simp [splitFuel] at h
      rw [h.1]
      rfl
    | cons c rest =>
      simp only [splitFuel] at h
      split at h
      · injection h with h1 h2
        rw [← h1]
        rfl
      · split at h
        · injection h with h1 h2
          rw [← h1]
          simp [isPrefixB]
        · rename_i hd2 tl2 hrec
          injection h with h1 h2
          have hpre := ih rest hd2 tl2 hrec
          rw [← h1]
          simp [isPrefixB, hpre]

/-- Parts produced by the split worker never contain the separator: the
scan cuts at every leftmost occurrence. -/
theorem splitFuel_no_sep (sep : GoStr) (hsep : sep ≠ []) :
    ∀ fuel s, s.length ≤ fuel →
      ∀ p ∈ splitFuel sep fuel s, containsGo p sep = false := by
  have hbase : containsGo [] sep = false := by
    cases sep with
    | nil => exact absurd rfl hsep
    | cons a as => rfl
  have hne : sep.isEmpty = false := by
    cases sep with
    | nil => exact absurd rfl hsep
    | cons a as => rfl
  have hlen : 1 ≤ sep.length := by
    cases sep with
    | nil => exact absurd rfl hsep
    | cons a as => simp
  intro fuel
  induction fuel with
  | zero =>
    intro s hs p hp
    have hs0 : s = [] := by
      cases s with
      | nil => rfl
      | cons c r => simp at hs
    subst hs0
    simp [splitFuel] at hp
    subst hp
    exact hbase
  | succ n ih =>
    intro s hs p hp
    cases s with
    | nil =>
      simp [splitFuel] at hp
      subst hp
      exact hbase
    | cons c rest =>
      simp only [splitFuel, hne, Bool.not_false, Bool.true_and] at hp
      cases hpre : isPrefixB sep (c :: rest) with
      | true =>
        rw [if_pos (by simp [hpre])] at hp
        rcases List.mem_cons.mp hp with hp0 | hp1
        · subst hp0
          exact hbase
        · refine ih ((c :: rest).drop sep.length) ?_ p hp1
          simp only [List.length_drop, List.length_cons]
          simp only [List.length_cons] at hs
          omega
      | false =>
        rw [if_neg (by simp [hpre])] at hp
        have hrest : rest.length ≤ n := by
          simp only [List.length_cons] at hs
          omega
        rcases hrec : splitFuel sep n rest with _ | ⟨hd, tl⟩
        · exact absurd hrec (splitFuel_ne_nil sep n rest)
        · rw [hrec] at hp
          rcases List.mem_cons.mp hp with hp0 | hp1
          · subst hp0
            have hhd : containsGo hd sep = false :=
              ih rest hrest hd (by rw [hrec]; exact List.mem_cons_self hd tl)
            have hnotPre : isPrefixB sep (c :: hd) = false := by
              cases hcp : isPrefixB sep (c :: hd) with
              | false => rfl
              | true =>
                have hhdr := splitFuel_head_leading sep n rest hd tl hrec
                have hstep : isPrefixB (c :: hd) (c :: rest) = true := by
                  simp [isPrefixB, hhdr]
                have := isPrefixB_trans hcp hstep
                rw [this] at hpre
                exact absurd hpre (by simp)
            simp [containsGo, hnotPre, hhd]
          · exact ih rest hrest p (by rw [hrec]; exact List.mem_cons_of_mem hd hp1)

/-- Parts of `splitGo` never contain the (nonempty) separator. -/
theorem splitGo_no_sep (sep : GoStr) (hsep : sep ≠ []) (s : GoStr) :
    ∀ p ∈ splitGo sep s, containsGo p sep = false :=
  splitFuel_no_sep sep hsep s.length s le_rfl

/-- Mapping an optional rendering over a cons, in terms of `Option.toList`. -/
theorem filterMap_cons_toList (f : GoStr → Option GoStr) (x : GoStr)
    (l : List GoStr) :
    List.filterMap f (x :: l) = (f x).toList ++ List.filterMap f l := by
  cases h : f x <;> simp [List.filterMap_cons, h]

/-- Full characterisation of the `printResults` scanner loop: the final
seen set stacks the new keys on the initial one, and the printed lines are
the renderings of the first-seen-deduplicated new keys, appended to the
accumulator. -/
theorem printLoop_eq (l : List GoStr) : ∀ seen printed,
    printLoop seen printed l =
      ((dedupNew seen l).reverse ++ seen,
       printed ++ (dedupNew seen l).filterMap renderLine) := by
  induction l with
  | nil => intro seen printed; simp [printLoop, dedupNew]
  | cons x rest ih =>
    intro seen printed
    by_cases hx : x ∈ seen
    · simp [printLoop, dedupNew, hx, ih]
    · simp only [printLoop, dedupNew, hx, if_neg, ite_false]
      rw [ih (x :: seen) (printed ++ (renderLine x).toList)]
      simp [filterMap_cons_toList, List.append_assoc]

/-- The spec-side first-seen deduplication agrees with the code-side
threaded seen set started empty. -/
theorem dedupFirstSeen_eq_dedupNew (l : List GoStr) :
    dedupFirstSeen l = dedupNew [] l := by
  have main : ∀ (l acc seen : List GoStr), (∀ x : GoStr, x ∈ seen ↔ x ∈ acc) →
      l.foldl (fun acc x => if x ∈ acc then acc else acc ++ [x]) acc =
        acc ++ dedupNew seen l := by
    intro l
    induction l with
    | nil => intro acc seen hiff; simp [dedupNew]
    | cons x rest ih =>
      intro acc seen hiff
      by_cases hx : x ∈ acc
      · have hxs : x ∈ seen := (hiff x).mpr hx
        simp only [List.foldl_cons, hx, if_pos, ite_true, dedupNew, hxs]
        exact ih acc seen hiff
      · have hxs : x ∉ seen := fun h => hx ((hiff x).mp h)
        simp only [List.foldl_cons, hx, if_neg, ite_false, dedupNew, hxs]
        rw [ih (acc ++ [x]) (x :: seen)
          (by intro y; simp [List.mem_cons, List.mem_append, hiff y, or_comm])]
        simp [List.append_assoc]
  simpa [dedupFirstSeen] using main l [] [] (by simp)

/-- The scanner loop distributes over list concatenation, threading its
seen set and printed lines. -/
theorem printLoop_append (a b : List GoStr) : ∀ seen printed,
    printLoop seen printed (a ++ b) =
      printLoop (printLoop seen printed a).1 (printLoop seen printed a).2 b := by
  induction a with
  | nil => intro seen printed; simp [printLoop]
  | cons x rest ih =>
    intro seen printed
    by_cases hx : x ∈ seen <;> simp [printLoop, hx, ih]

/-- A line whose split has at least five fields enriches successfully, and
`enrichedLine` names the result. -/
theorem atuinAdaptLine_ok (curDir l : GoStr)
    (h : 5 ≤ (splitGo _delim l).length) :
    atuinAdaptLine curDir l = .ok (enrichedLine curDir l) := by
  rcases h5 : splitGo _delim l with _ | ⟨a, _ | ⟨b, _ | ⟨c, _ | ⟨d, _ | ⟨e, rest⟩⟩⟩⟩⟩ <;>
    rw [h5] at h <;> simp at h <;>
    simp [atuinAdaptLine, enrichedLine, h5, Except.toOption]

/-- The producer loop with every write accepted maps `enrichedLine` over
its input, in order, appending to the accumulator. -/
theorem atuinAdaptGo_all_ok (curDir : GoStr) (lines : List GoStr)
    (h : ∀ l ∈ lines, atuinAdaptLine curDir l = .ok (enrichedLine curDir l)) :
    ∀ i written, atuinAdaptGo curDir (fun _ => true) lines i written =
      .finished (written ++ lines.map (enrichedLine curDir)) := by
  induction lines with
  | nil => intro i written; simp [atuinAdaptGo]
  | cons l rest ih =>
    intro i written
    have hl := h l (List.mem_cons_self l rest)
    simp only [atuinAdaptGo, hl, if_pos, ite_true]
    rw [ih (fun x hx => h x (List.mem_cons_of_mem l hx)) (i + 1)
      (written ++ [enrichedLine curDir l])]
    simp [List.append_assoc]

/-- Claim C1: contrary to the claim, the producer does not treat a failed
pipe write as benign.  At the failing input — two well-formed lines with a
consumer that accepts only the first write (its read end closed before the
second) — the producer goroutine ends in a `panic(err)` write-error panic
after the first enriched line, an unhandled abnormal termination rather
than a silent stop. -/
theorem adapter_write_failure_panics :
    atuinAdapt (gs "/h") (fun i => i == 0)
      [gs "a:::0:::/d:::1s:::t1", gs "b:::1:::/d:::2s:::t2"] =
    .panicked .writeError [enrichedLine (gs "/h") (gs "a:::0:::/d:::1s:::t1")] := by
  decide

/-- Claim C2: for every finite sequence of well-formed 5-field input lines
(and every write accepted by the consumer), the adapter's producer
finishes normally and emits exactly one enriched line per input line, in
the input order — no reordering, dropping, or duplication. -/
theorem adapter_emits_one_line_per_input_in_order (curDir : GoStr)
    (lines : List GoStr)
    (h : ∀ l ∈ lines, (splitGo _delim l).length = 5) :
    atuinAdapt curDir (fun _ => true) lines =
      .finished (lines.map (enrichedLine curDir)) ∧
    (lines.map (enrichedLine curDir)).length = lines.length := by
  refine ⟨?_, by simp⟩
  have h2 : ∀ l ∈ lines, atuinAdaptLine curDir l = .ok (enrichedLine curDir l) :=
    fun l hl => atuinAdaptLine_ok curDir l (le_of_eq (h l hl).symm)
  simpa [atuinAdapt] using atuinAdaptGo_all_ok curDir lines h2 0 []

/-- Claim C2 witness: a backend emitting three raw lines yields exactly
three enriched lines, in the same order. -/
theorem adapter_emits_one_line_per_input_in_order_witness :
    atuinAdapt (gs "/x") (fun _ => true)
      [gs "a:::0:::/x:::1s:::t1", gs "b:::2:::/y:::2s:::t2",
       gs "c:::0:::/z:::3s:::t3"] =
      .finished
        ([gs "a:::0:::/x:::1s:::t1", gs "b:::2:::/y:::2s:::t2",
          gs "c:::0:::/z:::3s:::t3"].map (enrichedLine (gs "/x"))) ∧
    ([gs "a:::0:::/x:::1s:::t1", gs "b:::2:::/y:::2s:::t2",
      gs "c:::0:::/z:::3s:::t3"].map (enrichedLine (gs "/x"))).length = 3 :=
  ⟨(adapter_emits_one_line_per_input_in_order (gs "/x")
      [gs "a:::0:::/x:::1s:::t1", gs "b:::2:::/y:::2s:::t2",
       gs "c:::0:::/z:::3s:::t3"] (by decide)).1,
   by decide⟩

/-- Claim C3: the preview's related-commands merge lists the global
results first and then the directory results, keeps first-seen order
across both sources, and emits each line at most once keyed by the exact
command-tab-directory string; in particular global `a /x, b /y` merged
with directory `b /y, c /z` prints exactly `a /x, b /y, c /z`. -/
theorem preview_merge_dedup_first_seen :
    (∀ a b : List GoStr,
      (relatedBlock (.ok a) (.ok b)).1 =
        (dedupFirstSeen (a ++ b)).filterMap renderLine) ∧
    (relatedBlock (.ok [gs "a\t/x", gs "b\t/y"])
        (.ok [gs "b\t/y", gs "c\t/z"])).1 =
      [padTrunc40 (gs "a") ++ gs " (/x)", padTrunc40 (gs "b") ++ gs " (/y)",
       padTrunc40 (gs "c") ++ gs " (/z)"] := by
  constructor
  · intro a b
    have h1 : relatedBlock (.ok a) (.ok b) =
        ((printLoop (printLoop [] [] a).1 (printLoop [] [] a).2 b).2, []) := rfl
    rw [h1, ← printLoop_append, printLoop_eq]
    simp [dedupFirstSeen_eq_dedupNew]
  · decide

/-- Claim C4: a line splitting into fewer than five fields is not
validated: its enrichment is an index-out-of-range panic, and the producer
goroutine run on a stream starting with such a line terminates abnormally
with that panic, having written nothing — it neither skips nor reports the
malformed line. -/
theorem adapter_malformed_line_panics (curDir line : GoStr)
    (h : (splitGo _delim line).length < 5) :
    atuinAdaptLine curDir line = .error .indexOutOfRange ∧
    ∀ accept rest, atuinAdapt curDir accept (line :: rest) =
      .panicked .indexOutOfRange [] := by
  have hline : atuinAdaptLine curDir line = .error .indexOutOfRange := by
    rcases h5 : splitGo _delim line with _ | ⟨a, _ | ⟨b, _ | ⟨c, _ | ⟨d, _ | ⟨e, rest⟩⟩⟩⟩⟩ <;>
      rw [h5] at h <;> simp at h <;> simp [atuinAdaptLine, h5] <;> omega
  exact ⟨hline, fun accept rest => by simp [atuinAdapt, atuinAdaptGo, hline]⟩

/-- Claim C4 witness: the one-field line `cmd` panics the producer. -/
theorem adapter_malformed_line_panics_witness :
    atuinAdaptLine (gs "/h") (gs "cmd") = .error .indexOutOfRange ∧
    atuinAdapt (gs "/h") (fun _ => true) [gs "cmd"] =
      .panicked .indexOutOfRange [] := by
  have h := adapter_malformed_line_panics (gs "/h") (gs "cmd") (by decide)
  exact ⟨h.1, h.2 (fun _ => true) []⟩

/-- Claim C5: both related-command queries are attempted regardless of the
other's outcome: a failing global query still prints the directory query's
deduplicated results with the failure collected alongside, and
symmetrically; two failing queries report both failures together, in
order. -/
theorem preview_queries_error_collection :
    (∀ (e : GoStr) (d : List GoStr),
      relatedBlock (.error e) (.ok d) =
        ((dedupFirstSeen d).filterMap renderLine, [e])) ∧
    (∀ (g : List GoStr) (e : GoStr),
      relatedBlock (.ok g) (.error e) =
        ((dedupFirstSeen g).filterMap renderLine, [e])) ∧
    (∀ e1 e2 : GoStr,
      relatedBlock (.error e1) (.error e2) = ([], [e1, e2])) := by
  refine ⟨?_, ?_, ?_⟩
  · intro e d
    have h1 : relatedBlock (.error e) (.ok d) = ((printLoop [] [] d).2, [e]) := rfl
    rw [h1, printLoop_eq]
    simp [dedupFirstSeen_eq_dedupNew]
  · intro g e
    have h1 : relatedBlock (.ok g) (.error e) = ((printLoop [] [] g).2, [e]) := rfl
    rw [h1, printLoop_eq]
    simp [dedupFirstSeen_eq_dedupNew]
  · intro e1 e2
    rfl

/-- Claim C6: a preview input splitting into fewer than five fields yields
the recoverable format error having printed nothing at all, while an input
with at least five fields passes the check: the report is printed and the
only collectible errors are the two query results'. -/
theorem preview_format_check (g d : Except GoStr (List GoStr)) (data : GoStr) :
    ((splitGo _delim data).length < 5 →
      fzfPreview g d data =
        ([], [formatErrMsg (splitGo _delim data).length])) ∧
    (5 ≤ (splitGo _delim data).length →
      (fzfPreview g d data).1 ≠ [] ∧
      (fzfPreview g d data).2 = (relatedBlock g d).2) := by
  rcases h5 : splitGo _delim data with _ | ⟨a, _ | ⟨b, _ | ⟨c, _ | ⟨d2, _ | ⟨e, rest⟩⟩⟩⟩⟩
  · exact ⟨fun _ => by simp [fzfPreview, h5], fun h => by simp at h⟩
  · exact ⟨fun _ => by simp [fzfPreview, h5], fun h => by simp at h⟩
  · exact ⟨fun _ => by simp [fzfPreview, h5], fun h => by simp at h⟩
  · exact ⟨fun _ => by simp [fzfPreview, h5], fun h => by simp at h⟩
  · exact ⟨fun _ => by simp [fzfPreview, h5], fun h => by simp at h⟩
  · refine ⟨fun h => ?_, fun _ => ⟨?_, ?_⟩⟩
    · simp only [List.length_cons] at h
      omega
    · simp [fzfPreview, h5]
    · simp [fzfPreview, h5]

/-- Claim C6 witness: `cmd:::1:::dir` (three fields) yields the format
error with nothing printed, while a five-field input prints a report. -/
theorem preview_format_check_witness :
    fzfPreview (.ok []) (.ok []) (gs "cmd:::1:::dir") =
      ([], [formatErrMsg (splitGo _delim (gs "cmd:::1:::dir")).length]) ∧
    (fzfPreview (.ok []) (.ok []) (gs "a:::0:::/d:::1s:::t")).1 ≠ [] :=
  ⟨(preview_format_check (.ok []) (.ok []) (gs "cmd:::1:::dir")).1 (by decide),
   ((preview_format_check (.ok []) (.ok []) (gs "a:::0:::/d:::1s:::t")).2
      (by decide)).1⟩

/-- Claim C7: the derived exit marker is blank (all spaces) exactly when
the exit code is `0`, otherwise it contains the literal exit code; and the
derived directory context is non-empty exactly when the record's directory
equals the working directory captured at adapter start. -/
theorem enrichment_markers_iff (exitCode curDir directory : GoStr) :
    ((∀ c ∈ exitStatus exitCode, c = ' ') ↔ exitCode = gs "0") ∧
    (exitCode ≠ gs "0" → containsGo (exitStatus exitCode) exitCode = true) ∧
    (dirCtx curDir directory ≠ gs "" ↔ directory = curDir) := by
  refine ⟨?_, ?_, ?_⟩
  · by_cases h0 : exitCode = gs "0"
    · refine iff_of_true ?_ h0
      rw [exitStatus, if_neg (by simpa using h0)]
      intro c hc
      simpa [gs] using hc
    · refine iff_of_false ?_ h0
      rw [exitStatus, if_pos h0]
      intro hall
      have hmem : '\x1b' ∈ Foreground Red (gs "exit " ++ exitCode) := by
        simp only [Foreground, List.mem_append]
        left; left; left; left
        decide
      exact absurd (hall '\x1b' hmem) (by decide)
  · intro h0
    rw [exitStatus, if_pos h0]
    have hshape : Foreground Red (gs "exit " ++ exitCode) =
        (gs "\x1b[38;5;" ++ gs (toString Red) ++ gs "m" ++ gs "exit ") ++
          (exitCode ++ gs "\x1b[0m") := by
      simp [Foreground, List.append_assoc]
    rw [hshape]
    exact containsGo_middle _ exitCode _
  · by_cases hd : directory = curDir
    · exact iff_of_true (by rw [dirCtx, if_pos hd]; decide) hd
    · refine iff_of_false ?_ hd
      rw [dirCtx, if_neg hd]
      simp

/-- Claim C7 witness: exit code `7` gives a non-blank marker containing
`7`, and a matching directory gives a non-empty context marker. -/
theorem enrichment_markers_iff_witness :
    containsGo (exitStatus (gs "7")) (gs "7") = true ∧
    dirCtx (gs "/h") (gs "/h") ≠ gs "" ∧
    ¬ (gs "7" = gs "0") :=
  ⟨(enrichment_markers_iff (gs "7") (gs "/h") (gs "/h")).2.1 (by decide),
   ((enrichment_markers_iff (gs "7") (gs "/h") (gs "/h")).2.2).mpr rfl,
   by decide⟩

/-- Claim C8: parsing a well-formed 5-field line and serialising it
round-trips the five original fields exactly: the enriched output is the
five fields, unchanged and in order, followed by the two derived fields,
joined by the same delimiter — and no field of such a line contains the
delimiter. -/
theorem parse_serialize_round_trip (curDir line f1 f2 f3 f4 f5 : GoStr)
    (h : splitGo _delim line = [f1, f2, f3, f4, f5]) :
    atuinAdaptLine curDir line =
      .ok (List.intercalate _delim
        [f1, f2, f3, f4, f5, exitStatus f2, dirCtx curDir f3]) ∧
    ∀ f ∈ [f1, f2, f3, f4, f5], containsGo f _delim = false := by
  constructor
  · simp [atuinAdaptLine, h]
  · intro f hf
    have h2 := splitGo_no_sep _delim (by decide) line
    rw [h] at h2
    exact h2 f hf

/-- Claim C8 witness: a concrete five-field line round-trips. -/
theorem parse_serialize_round_trip_witness :
    atuinAdaptLine (gs "/home") (gs "ls -la:::0:::/home:::5ms:::2024-01-01") =
      .ok (List.intercalate _delim
        [gs "ls -la", gs "0", gs "/home", gs "5ms", gs "2024-01-01",
         exitStatus (gs "0"), dirCtx (gs "/home") (gs "/home")]) ∧
    ∀ f ∈ [gs "ls -la", gs "0", gs "/home", gs "5ms", gs "2024-01-01"],
      containsGo f _delim = false :=
  parse_serialize_round_trip (gs "/home")
    (gs "ls -la:::0:::/home:::5ms:::2024-01-01")
    (gs "ls -la") (gs "0") (gs "/home") (gs "5ms") (gs "2024-01-01") (by decide)

/-- Claim C9: the controller attempts its steps in the fixed linear order
backend-launch, adapter-attach, selector-run, backend-await; a failing
step returns that step's error with all later steps unattempted; and only
after a successful backend wait — the last step — does it return success. -/
theorem pipeline_linear_order_and_abort :
    (∀ env : RunEnv, (run env).1 <+: pipelineSteps) ∧
    (∀ (e : GoStr) (a f w : Except GoStr Unit),
      run ⟨.error e, a, f, w⟩ = ([.backendLaunch], .error e)) ∧
    (∀ (e : GoStr) (f w : Except GoStr Unit),
      run ⟨.ok (), .error e, f, w⟩ =
        ([.backendLaunch, .adapterAttach], .error e)) ∧
    (∀ (e : GoStr) (w : Except GoStr Unit),
      run ⟨.ok (), .ok (), .error e, w⟩ =
        ([.backendLaunch, .adapterAttach, .selectorRun], .error e)) ∧
    (∀ e : GoStr,
      run ⟨.ok (), .ok (), .ok (), .error e⟩ = (pipelineSteps, .error e)) ∧
    run ⟨.ok (), .ok (), .ok (), .ok ()⟩ = (pipelineSteps, .ok ()) ∧
    pipelineSteps.getLast? = some .backendAwait := by
  refine ⟨?_, fun e a f w => rfl, fun e f w => rfl, fun e w => rfl,
    fun e => rfl, rfl, rfl⟩
  rintro ⟨s, ad, fz, wt⟩
  cases s <;> cases ad <;> cases fz <;> cases wt <;>
    first
      | exact ⟨[.adapterAttach, .selectorRun, .backendAwait], rfl⟩
      | exact ⟨[.selectorRun, .backendAwait], rfl⟩
      | exact ⟨[.backendAwait], rfl⟩
      | exact ⟨[], rfl⟩

/-- Claim C10: invoking the program as `prog --preview` with no record
argument runs neither the preview renderer nor the interactive pipeline,
produces no output, and exits with code zero. -/
theorem preview_flag_without_argument_noop
    (previewRes runRes : GoStr → Except GoStr Unit) (prog : GoStr) :
    mainModel previewRes runRes [prog, gs "--preview"] = (0, false, false) := rfl

end AtuinFzf
